/-
Verification of the tailtown RAG indexing/retrieval engine.

Shallow embedding of the Python sources:
  mcp-server/indexer.py      (TailtownIndexer: chunking, index pass, file fetch)
  mcp-server/vector_store.py (VectorStore: build / search / rebuild)
  mcp-server/server.py       (reindex request path, step granularity for §5)

Conventions of the embedding:
  * Python strings are Lean `String`; `content.split('\n')` is `splitLines`
    (defined over the character list so that it evaluates in the kernel);
    `'\n'.join(...)` is `joinNl`.
  * `chunk_size` / `chunk_overlap` are `Nat` (the config holds nonnegative ints).
  * The sentence-transformer model and FAISS index are external collaborators
    (spec §4.3 treats them as opaque).  The embedding function and the
    L2-normalisation are carried as function-valued fields; the FAISS index is
    its list of added vectors (`Option` distinguishes `self.index = None`).
  * The md5 `chunk_id` field and `os.path.getmtime` timestamps are external;
    `chunk_id` is omitted (no claim mentions it), timestamps are a
    function-valued field of the modelled filesystem.
  * The Python accumulation `chunks.append(...)`/`chunks` is rendered as
    cons-style recursion emitting chunks in the same order.
-/
import Mathlib

/-! ## String helpers (Python `str.split`, `str.join`, `str.strip`, `in`) -/

/-- `content.split(sep)` for a one-character separator, on character lists.
`splitOnCh sep []` is `[[]]`, matching Python's `''.split(sep) == ['']`. -/
def splitOnCh (sep : Char) : List Char → List (List Char)
  | [] => [[]]
  | c :: cs =>
    if c = sep then [] :: splitOnCh sep cs
    else match splitOnCh sep cs with
      | [] => [[c]]
      | h :: t => (c :: h) :: t

/-- `content.split('\n')`. -/
def splitLines (s : String) : List String := (splitOnCh '\n' s.data).map (fun l => ⟨l⟩)

/-- `'\n'.join(lines)` on character lists. -/
def joinNlChars : List (List Char) → List Char
  | [] => []
  | [l] => l
  | l :: ls => l ++ '\n' :: joinNlChars ls

/-- `'\n'.join(lines)`. -/
def joinNl (ls : List String) : String := ⟨joinNlChars (ls.map String.data)⟩

/-- Python whitespace for `str.strip` (space, tab, newline, return, VT, FF). -/
def isWs (c : Char) : Bool :=
  c == ' ' || c == '\t' || c == '\n' || c == '\r' || c.toNat == 11 || c.toNat == 12

/-- `line.strip()`. -/
def stripStr (s : String) : String :=
  ⟨((s.data.dropWhile isWs).reverse.dropWhile isWs).reverse⟩

/-- `line.startswith('#')`. -/
def startsWithHash (s : String) : Bool :=
  match s.data with
  | c :: _ => c == '#'
  | [] => false

/-- Does `l` start with `sub`? (helper for substring membership). -/
def isPre : List Char → List Char → Bool
  | [], _ => true
  | _ :: _, [] => false
  | a :: as, b :: bs => a == b && isPre as bs

/-- Is `sub` a contiguous substring of `l`? -/
def hasSubAux (sub : List Char) : List Char → Bool
  | [] => sub.isEmpty
  | c :: cs => isPre sub (c :: cs) || hasSubAux sub cs

/-- Python `sub in line`. -/
def strContains (line sub : String) : Bool := hasSubAux sub.data line.data

/-! ## `TailtownIndexer._detect_language` (indexer.py lines 121-125)

`pathlib.PurePath.suffix` is external; it is modelled from its documented
behaviour: the extension of the final path component, i.e. the final
dot-suffix, empty when the dot is the first or the last character of the
component. -/

/-- `pathlib.Path(p).suffix`. -/
def pathSuffix (p : String) : String :=
  let name := (splitOnCh '/' p.data).getLastD []
  let j := name.reverse.findIdx (fun c => c == '.')
  if 0 < j && j + 1 < name.length then ⟨name.drop (name.length - 1 - j)⟩ else ""

/-- The `ext_map` literal of `_detect_language`. -/
def extMap : List (String × String) :=
  [(".ts", "typescript"), (".tsx", "typescript"), (".js", "javascript"),
   (".jsx", "javascript"), (".py", "python"), (".md", "markdown"),
   (".json", "json"), (".yml", "yaml"), (".yaml", "yaml"), (".prisma", "prisma")]

/-- `TailtownIndexer._detect_language`: `ext_map.get(file_path.suffix, '')`. -/
def detectLanguage (file_path : String) : String :=
  (extMap.lookup (pathSuffix file_path)).getD ""

/-! ## `TailtownIndexer._extract_metadata` (indexer.py lines 127-137) -/

/-- `TailtownIndexer._extract_metadata`: first declaration-looking line of the
first 10 lines for `code`, first `#` heading of the first 5 lines for
`documentation`, else the empty string. -/
def extractMetadata (content file_type : String) : String :=
  let lines := splitLines content
  if file_type = "code" then
    match (lines.take 10).find?
        (fun line => strContains line "export const" || strContains line "export function"
          || strContains line "class ") with
    | some line => stripStr line
    | none => ""
  else if file_type = "documentation" then
    match (lines.take 5).find? (fun line => startsWithHash line) with
    | some line => stripStr line
    | none => ""
  else ""

/-! ## `TailtownIndexer._create_chunks` (indexer.py lines 73-119) -/

/-- Sum of the line lengths of a buffer: the value the Python loop tracks in
`current_size` (it never counts the newlines that `'\n'.join` inserts). -/
def sumLens (ls : List String) : Nat := (ls.map String.length).sum

/-- The backward overlap walk (indexer.py lines 94-100): iterate
`reversed(current_chunk)`, stop as soon as `overlap_size + len(prev_line)`
would exceed `overlap`, prepending kept lines (`overlap_lines.insert(0, ...)`).
The first argument list is `current_chunk` already reversed. -/
def overlapWalk (overlap : Nat) : List String → List String → Nat → List String × Nat
  | [], acc, size => (acc, size)
  | l :: rest, acc, size =>
    if size + l.length > overlap then (acc, size)
    else overlapWalk overlap rest (l :: acc) (size + l.length)

/-- The overlap seed taken from a just-emitted chunk: `overlap_lines` and
`overlap_size` of indexer.py lines 94-100. -/
def overlapSeed (overlap : Nat) (current_chunk : List String) : List String × Nat :=
  overlapWalk overlap current_chunk.reverse [] 0

/-- The chunking loop of `_create_chunks` at the level of line lists:
state `(current_chunk, current_size)`, one step per input line, emitting
`current_chunk` when the next line would overflow `chunk_size` and the buffer
is non-empty, then seeding the next buffer with the overlap window; a final
non-empty buffer is flushed (indexer.py lines 81-117). -/
def chunkLoop (chunk_size overlap : Nat) :
    List String → List String → Nat → List (List String)
  | [], current_chunk, _ =>
    if current_chunk = [] then [] else [current_chunk]
  | line :: rest, current_chunk, current_size =>
    if current_size + line.length > chunk_size ∧ current_chunk ≠ [] then
      let seed := overlapSeed overlap current_chunk
      current_chunk :: chunkLoop chunk_size overlap rest (seed.1 ++ [line]) (seed.2 + line.length)
    else
      chunkLoop chunk_size overlap rest (current_chunk ++ [line]) (current_size + line.length)

/-- `_create_chunks` as line lists: `lines = content.split('\n')`, then the
loop starting from an empty buffer. -/
def createChunksLines (chunk_size overlap : Nat) (lines : List String) : List (List String) :=
  chunkLoop chunk_size overlap lines [] 0

/-- A chunk dict (indexer.py lines 85-92 / 110-117).  `chunk_id`
(`hashlib.md5(chunk_content.encode()).hexdigest()`) is an external
cryptographic hash no claim depends on; it is not modelled. -/
structure Chunk where
  content : String
  file_path : String
  file_type : String
  language : String
  metadata : String
deriving DecidableEq

/-- `TailtownIndexer._create_chunks`: each emitted buffer becomes a chunk dict
with `content = '\n'.join(current_chunk)` and the derived fields. -/
def createChunks (chunk_size overlap : Nat) (content file_path file_type : String) :
    List Chunk :=
  (createChunksLines chunk_size overlap (splitLines content)).map fun ls =>
    let chunk_content := joinNl ls
    { content := chunk_content, file_path := file_path, file_type := file_type,
      language := detectLanguage file_path,
      metadata := extractMetadata chunk_content file_type }

/-! ## `VectorStore` (vector_store.py)

The sentence-transformer model and FAISS are opaque collaborators (spec §4.3):
`model` is the embedding function `encode` restricted to one text, `normalize`
is `faiss.normalize_L2` on one vector, and the FAISS `IndexFlatIP` is the list
of vectors added to it (`none` models `self.index = None`).  `V` is the vector
type. -/
structure VectorStore (V : Type) where
  model : String → V
  normalize : V → V
  index : Option (List V)
  chunks : List Chunk

/-- `VectorStore.__init__` leaves `self.index = None` and `self.chunks = []`. -/
def VectorStore.init (model : String → V) (normalize : V → V) : VectorStore V :=
  { model := model, normalize := normalize, index := none, chunks := [] }

/-- `self.index.ntotal`, with `None` counting as zero vectors. -/
def VectorStore.ntotal (vs : VectorStore V) : Nat :=
  match vs.index with
  | none => 0
  | some vecs => vecs.length

/-- The vectors held by the store (empty when `self.index is None`). -/
def VectorStore.vectors (vs : VectorStore V) : List V :=
  match vs.index with
  | none => []
  | some vecs => vecs

/-- `VectorStore.build` (vector_store.py lines 21-34): early return on an empty
chunk list, otherwise store the chunks, embed every `chunk['content']` in
order, normalize, and load into a fresh index. -/
def VectorStore.build (vs : VectorStore V) (chunks : List Chunk) : VectorStore V :=
  if chunks = [] then vs
  else
    { vs with
      chunks := chunks,
      index := some ((chunks.map (fun c => c.content)).map (fun t => vs.normalize (vs.model t))) }

/-- `VectorStore.rebuild` (vector_store.py lines 55-59): discard index and
chunk list, then `build`. -/
def VectorStore.rebuild (vs : VectorStore V) (chunks : List Chunk) : VectorStore V :=
  VectorStore.build { vs with index := none, chunks := [] } chunks

/-- A search result: `{**chunk, 'score': float(score)}` (vector_store.py
line 50).  Similarity scores are opaque numeric values; they are modelled as
`Int` (only their ordering matters to any claim). -/
structure SearchResult where
  chunk : Chunk
  score : Int
deriving DecidableEq

/-- The result loop of `VectorStore.search` (vector_store.py lines 43-52):
iterate `zip(scores[0], indices[0])`, skip out-of-range indices, skip chunks
failing the category filter, append, and break once `top_k` results are
collected. -/
def searchLoop (chunks : List Chunk) (filter_type : String) (top_k : Nat) :
    List (Int × Int) → List SearchResult → List SearchResult
  | [], results => results
  | (score, idx) :: rest, results =>
    if h : idx < 0 ∨ (chunks.length : Int) ≤ idx then
      searchLoop chunks filter_type top_k rest results
    else
      let chunk := chunks.get ⟨idx.toNat, by rcases not_or.mp h with ⟨h1, h2⟩; omega⟩
      if filter_type ≠ "all" ∧ chunk.file_type ≠ filter_type then
        searchLoop chunks filter_type top_k rest results
      else
        let results := results ++ [{ chunk := chunk, score := score }]
        if top_k ≤ results.length then results
        else searchLoop chunks filter_type top_k rest results

/-- `VectorStore.search` (vector_store.py lines 36-53).  The FAISS call
`self.index.search(query_embedding, min(top_k * 3, self.index.ntotal))` is the
opaque nearest-neighbor store; its reply — the `min(top_k * 3, ntotal)` rows of
`zip(scores[0], indices[0])` — is passed in as `resp`.  The guard for a missing
or empty index returns `[]`. -/
def VectorStore.search (vs : VectorStore V) (resp : List (Int × Int))
    (top_k : Nat) (filter_type : String) : List SearchResult :=
  match vs.index with
  | none => []
  | some vecs =>
    if vecs.length = 0 then []
    else searchLoop vs.chunks filter_type top_k resp []

/-! ## `TailtownIndexer` index pass (indexer.py lines 20-71, 139-168)

The filesystem is an external collaborator: `read p` is
`open(p, encoding='utf-8').read()`, with `none` standing for the
`UnicodeDecodeError` that `_index_file` catches; `getsize`/`getmtime`/`fexists`
model `os.path.getsize`, `os.path.getmtime` (isoformat timestamp) and
`Path.exists`. -/
structure FS where
  read : String → Option String
  getsize : String → Nat
  getmtime : String → String
  fexists : String → Bool

/-- One `self.files_index[rel_path]` entry (indexer.py lines 63-69). -/
structure FileRecord where
  path : String
  type : String
  size : Nat
  modified : String
  language : String
deriving DecidableEq

/-- The mutable indexer state `(self.chunks, self.files_index)`; the dict is an
association list whose most recent binding is found first by `List.lookup`. -/
structure IndexerState where
  chunks : List Chunk
  files_index : List (String × FileRecord)
deriving DecidableEq

/-- `TailtownIndexer._index_file` (indexer.py lines 55-71): a decode failure
returns `[]` before the registry entry is written; otherwise the `FileRecord`
is stored and the content is chunked. -/
def indexFile (fs : FS) (chunk_size overlap : Nat)
    (files_index : List (String × FileRecord)) (rel_path file_type : String) :
    List Chunk × List (String × FileRecord) :=
  match fs.read rel_path with
  | none => ([], files_index)
  | some content =>
    let record : FileRecord :=
      { path := rel_path, type := file_type, size := content.length,
        modified := fs.getmtime rel_path, language := detectLanguage rel_path }
    (createChunks chunk_size overlap content rel_path file_type,
     (rel_path, record) :: files_index)

/-- The `stats` dict of `index_all` (indexer.py line 21); `by_type` is the
inner counter dict as an association list. -/
structure Stats where
  files_indexed : Nat
  chunks_created : Nat
  total_size : Nat
  by_type : List (String × Nat)
deriving DecidableEq

/-- `stats['by_type'][file_type] = stats['by_type'].get(file_type, 0) + 1`. -/
def bumpType (by_type : List (String × Nat)) (file_type : String) : List (String × Nat) :=
  match by_type.lookup file_type with
  | some n => (file_type, n + 1) :: by_type.eraseP (fun p => p.1 == file_type)
  | none => (file_type, 1) :: by_type

/-- The body of the file loop of `index_all` (indexer.py lines 29-37) for one
discovered, non-excluded file: chunk it, extend `self.chunks`, and update the
statistics.  In the source the body sits in a `try`; `_index_file` converts the
only modelled failure (decode) into an empty chunk list, so the body completes
on every modelled file. -/
def indexStep (fs : FS) (chunk_size overlap : Nat) :
    IndexerState × Stats → String × String → IndexerState × Stats
  | (st, stats), (rel_path, file_type) =>
    let r := indexFile fs chunk_size overlap st.files_index rel_path file_type
    ({ chunks := st.chunks ++ r.1, files_index := r.2 },
     { files_indexed := stats.files_indexed + 1,
       chunks_created := stats.chunks_created + r.1.length,
       total_size := stats.total_size + fs.getsize rel_path,
       by_type := bumpType stats.by_type file_type })

/-- `TailtownIndexer.index_all` (indexer.py lines 20-40) over the already
discovered `(rel_path, file_type)` list (glob expansion and exclusion are the
File Discoverer, upstream of every claim about the pass itself). -/
def indexAll (fs : FS) (chunk_size overlap : Nat)
    (files : List (String × String)) (acc : IndexerState × Stats) :
    IndexerState × Stats :=
  files.foldl (indexStep fs chunk_size overlap) acc

/-- The value `get_file_content` returns on success (indexer.py lines 149-155). -/
structure FileContext where
  path : String
  content : String
  type : String
  size : Nat
  modified : String
  language : String
deriving DecidableEq

/-- `TailtownIndexer.get_file_content` (indexer.py lines 142-158):
`None` when `project_root / file_path` does not exist or the read raises;
otherwise the fresh content plus registry metadata, with
`self.files_index.get(file_path, {}).get('type', 'unknown')`. -/
def getFileContent (fs : FS) (files_index : List (String × FileRecord))
    (project_root file_path : String) : Option FileContext :=
  let full_path := project_root ++ "/" ++ file_path
  if fs.fexists full_path = false then none
  else
    match fs.read full_path with
    | none => none
    | some content =>
      some { path := file_path, content := content,
             type := match files_index.lookup file_path with
                     | some record => record.type
                     | none => "unknown",
             size := content.length, modified := fs.getmtime full_path,
             language := detectLanguage full_path }

/-! ## Reconstruction spans (spec §8, "chunking round-trip")

Modelled from the spec: a chunk's *unique (non-overlap) line span* is the part
of its line list that it did not inherit as the overlap seed from the previous
chunk; the first chunk's whole line list is unique.  These definitions follow
the spec's words and are compared against `createChunksLines` in the
round-trip claim. -/

/-- Unique spans of the chunks after the first: each drops the overlap seed
taken from its predecessor. -/
def freshTail (overlap : Nat) (prev : List String) : List (List String) → List (List String)
  | [] => []
  | c :: cs => c.drop (overlapSeed overlap prev).1.length :: freshTail overlap c cs

/-- Unique spans where the first chunk drops its first `k` lines (the loop
invariant form: `k` is the length of the seed the first chunk started from). -/
def freshSpansFrom (overlap k : Nat) : List (List String) → List (List String)
  | [] => []
  | c :: cs => c.drop k :: freshTail overlap c cs

/-- Unique (non-overlap) line spans of a chunk sequence. -/
def freshSpans (overlap : Nat) (chunks : List (List String)) : List (List String) :=
  freshSpansFrom overlap 0 chunks

/-! ## The reindex request path (server.py lines 75-79, vector_store.py 55-59)

Shared mutable server state as observed by a concurrent reader: the indexer's
`(self.chunks, self.files_index)` pair and the vector store's
`(self.chunks, self.index)` pair.  `reindexStates` lists the states after each
successive statement of the reindex path — `indexer.reindex` (clear chunks,
clear registry, run `index_all`) followed by `vector_store.rebuild`
(`self.index = None`, `self.chunks = []`, then `build`: store chunks, load the
freshly embedded vectors).  Both long-running halves run on worker threads
(`asyncio.to_thread`) with no lock, so a query serving on the event-loop
thread can observe the state after any of these statements. -/
structure ServerState (V : Type) where
  idxChunks : List Chunk
  idxFiles : List (String × FileRecord)
  vsChunks : List Chunk
  vsIndex : Option (List V)
deriving DecidableEq

/-- The successive states of one `reindex` tool call, starting from `st`,
where `index_all` produces `newChunks` / `newFiles`.  When `newChunks` is
empty, `build` returns at its guard and the last two statements do not run. -/
def reindexStates (embed : String → V) (normalize : V → V)
    (newChunks : List Chunk) (newFiles : List (String × FileRecord))
    (st : ServerState V) : List (ServerState V) :=
  let st1 : ServerState V := { st with idxChunks := [] }
  let st2 : ServerState V := { st1 with idxFiles := [] }
  let st3 : ServerState V := { st2 with idxChunks := newChunks, idxFiles := newFiles }
  let st4 : ServerState V := { st3 with vsIndex := none }
  let st5 : ServerState V := { st4 with vsChunks := [] }
  if newChunks = [] then [st, st1, st2, st3, st4, st5]
  else
    let st6 : ServerState V := { st5 with vsChunks := newChunks }
    let st7 : ServerState V :=
      { st6 with vsIndex := some (newChunks.map (fun c => normalize (embed c.content))) }
    [st, st1, st2, st3, st4, st5, st6, st7]

/-- `VectorStore` positional invariant (spec §3): vector `i` is the normalized
embedding of chunk `i` of the stored chunk list. -/
def VectorStore.Inv (vs : VectorStore V) : Prop :=
  vs.vectors = vs.chunks.map (fun c => vs.normalize (vs.model c.content))

/-! ## Lemmas about the overlap walk -/

theorem sumLens_nil : sumLens [] = 0 := rfl

theorem sumLens_append (a b : List String) : sumLens (a ++ b) = sumLens a + sumLens b := by
  simp [sumLens]

theorem sumLens_reverse (l : List String) : sumLens l.reverse = sumLens l := by
  simp [sumLens, List.map_reverse, List.sum_reverse]

/-- Full characterization of the backward walk: it keeps a front segment of
its (reversed) input, reverses it back, and its size accumulator adds that
segment's line lengths. -/
theorem overlapWalk_spec (overlap : Nat) :
    ∀ (rs acc : List String) (size : Nat),
      ∃ m, m ≤ rs.length ∧
        overlapWalk overlap rs acc size =
          ((rs.take m).reverse ++ acc, size + sumLens (rs.take m)) := by
  intro rs
  induction rs with
  | nil =>
    intro acc size
    exact ⟨0, Nat.le_refl 0, by simp [overlapWalk, sumLens]⟩
  | cons l rest ih =>
    intro acc size
    by_cases h : size + l.length > overlap
    · exact ⟨0, Nat.zero_le _, by simp [overlapWalk, h, sumLens]⟩
    · obtain ⟨m, hm, heq⟩ := ih (l :: acc) (size + l.length)
      refine ⟨m + 1, Nat.succ_le_succ hm, ?_⟩
      have hstep : overlapWalk overlap (l :: rest) acc size =
          overlapWalk overlap rest (l :: acc) (size + l.length) := by
        simp [overlapWalk, h]
      rw [hstep, heq]
      simp [sumLens, List.take_succ_cons]
      omega
    
theorem overlapWalk_size_le (overlap : Nat) :
    ∀ (rs acc : List String) (size : Nat), size ≤ overlap →
      (overlapWalk overlap rs acc size).2 ≤ overlap := by
  intro rs
  induction rs with
  | nil => intro acc size h; simpa [overlapWalk] using h
  | cons l rest ih =>
    intro acc size h
    by_cases hc : size + l.length > overlap
    · simpa [overlapWalk, hc] using h
    · have : overlapWalk overlap (l :: rest) acc size =
          overlapWalk overlap rest (l :: acc) (size + l.length) := by
        simp [overlapWalk, hc]
      rw [this]
      exact ih (l :: acc) (size + l.length) (by omega)

/-- The overlap seed is a trailing span (`drop n`) of the emitted chunk. -/
theorem overlapSeed_drop (overlap : Nat) (cur : List String) :
    ∃ n, n ≤ cur.length ∧ (overlapSeed overlap cur).1 = cur.drop n := by
  obtain ⟨m, hm, heq⟩ := overlapWalk_spec overlap cur.reverse [] 0
  rw [List.length_reverse] at hm
  refine ⟨cur.length - m, Nat.sub_le _ _, ?_⟩
  have hsplit : cur.reverse = (cur.drop (cur.length - m)).reverse ++ (cur.take (cur.length - m)).reverse := by
    rw [← List.reverse_append, List.take_append_drop]
  have hlen : (cur.drop (cur.length - m)).reverse.length = m := by
    rw [List.length_reverse, List.length_drop]
    omega
  have htake : cur.reverse.take m = (cur.drop (cur.length - m)).reverse := by
    rw [hsplit, List.take_left' hlen]
  rw [overlapSeed, heq]
  simp [htake]

/-- The walk's `overlap_size` accumulator equals the sum of the seed's line
lengths. -/
theorem overlapSeed_sum (overlap : Nat) (cur : List String) :
    (overlapSeed overlap cur).2 = sumLens (overlapSeed overlap cur).1 := by
  obtain ⟨m, hm, heq⟩ := overlapWalk_spec overlap cur.reverse [] 0
  rw [overlapSeed, heq]
  simp [sumLens_reverse]

/-- The seed's line lengths sum to at most `overlap`. -/
theorem overlapSeed_size_le (overlap : Nat) (cur : List String) :
    (overlapSeed overlap cur).2 ≤ overlap :=
  overlapWalk_size_le overlap cur.reverse [] 0 (Nat.zero_le overlap)

/-- With `overlap = 0` every line the walk keeps has length zero (the guard
`overlap_size + len(prev_line) > 0` fails only for empty lines). -/
theorem overlapWalk_zero_empty :
    ∀ (rs acc : List String) (size : Nat), (∀ l ∈ acc, l.length = 0) →
      ∀ l ∈ (overlapWalk 0 rs acc size).1, l.length = 0 := by
  intro rs
  induction rs with
  | nil => intro acc size hacc; simpa [overlapWalk] using hacc
  | cons l rest ih =>
    intro acc size hacc
    by_cases hc : size + l.length > 0
    · simpa [overlapWalk, hc] using hacc
    · have : overlapWalk 0 (l :: rest) acc size =
          overlapWalk 0 rest (l :: acc) (size + l.length) := by
        simp [overlapWalk, hc]
      rw [this]
      refine ih (l :: acc) (size + l.length) ?_
      intro x hx
      rcases List.mem_cons.mp hx with rfl | hx
      · omega
      · exact hacc x hx

theorem overlapSeed_zero_empty (cur : List String) :
    ∀ l ∈ (overlapSeed 0 cur).1, l.length = 0 :=
  overlapWalk_zero_empty cur.reverse [] 0 (by simp)

/-! ## Structural lemmas about the chunking loop -/

/-- Every emitted chunk is a non-empty line list: the emit guard requires
`current_chunk` non-empty and the final flush is guarded by
`if current_chunk:`. -/
theorem chunkLoop_ne_nil (s o : Nat) :
    ∀ (rest cur : List String) (size : Nat),
      ∀ c ∈ chunkLoop s o rest cur size, c ≠ [] := by
  intro rest
  induction rest with
  | nil =>
    intro cur size c hc
    by_cases h : cur = [] <;> simp [chunkLoop, h] at hc
    subst hc
    simpa using h
  | cons line rest' ih =>
    intro cur size c hc
    by_cases h : size + line.length > s ∧ cur ≠ []
    · rw [chunkLoop, if_pos h] at hc
      rcases List.mem_cons.mp hc with rfl | hc
      · exact h.2
      · exact ih _ _ c hc
    · rw [chunkLoop, if_neg h] at hc
      exact ih _ _ c hc

/-- If the loop emits anything, its first chunk extends the starting buffer:
the buffer only ever grows by appends until it is emitted. -/
theorem chunkLoop_head_ext (s o : Nat) :
    ∀ (rest cur : List String) (size : Nat),
      chunkLoop s o rest cur size = [] ∨
      ∃ t out, chunkLoop s o rest cur size = (cur ++ t) :: out := by
  intro rest
  induction rest with
  | nil =>
    intro cur size
    by_cases h : cur = []
    · exact Or.inl (by simp [chunkLoop, h])
    · exact Or.inr ⟨[], [], by simp [chunkLoop, h]⟩
  | cons line rest' ih =>
    intro cur size
    by_cases h : size + line.length > s ∧ cur ≠ []
    · refine Or.inr ⟨[], chunkLoop s o rest' ((overlapSeed o cur).1 ++ [line])
        ((overlapSeed o cur).2 + line.length), ?_⟩
      rw [chunkLoop, if_pos h]
      simp
    · rw [chunkLoop, if_neg h]
      rcases ih (cur ++ [line]) (size + line.length) with hnil | ⟨t, out, heq⟩
      · exact Or.inl hnil
      · exact Or.inr ⟨[line] ++ t, out, by rw [heq, List.append_assoc]⟩

/-- Consecutive emitted chunks are linked by the overlap seed: each chunk
after the first begins with the seed computed from its predecessor. -/
theorem chunkLoop_chain (s o : Nat) :
    ∀ (rest cur : List String) (size : Nat),
      List.Chain' (fun a b => ∃ t, b = (overlapSeed o a).1 ++ t)
        (chunkLoop s o rest cur size) := by
  intro rest
  induction rest with
  | nil =>
    intro cur size
    by_cases h : cur = [] <;> simp [chunkLoop, h]
  | cons line rest' ih =>
    intro cur size
    by_cases h : size + line.length > s ∧ cur ≠ []
    · rw [chunkLoop, if_pos h]
      rw [List.chain'_cons']
      refine ⟨?_, ih _ _⟩
      intro b hb
      rcases chunkLoop_head_ext s o rest' ((overlapSeed o cur).1 ++ [line])
          ((overlapSeed o cur).2 + line.length) with hnil | ⟨t, out, heq⟩
      · simp [hnil] at hb
      · rw [heq] at hb
        simp only [List.head?_cons, Option.mem_def, Option.some.injEq] at hb
        exact ⟨[line] ++ t, by rw [← hb, List.append_assoc]⟩
    · rw [chunkLoop, if_neg h]
      exact ih _ _

/-- Loop invariant for the round-trip: dropping the first `k` lines of the
first emitted chunk and every later chunk's inherited seed reconstructs
`cur.drop k` followed by the unconsumed input. -/
theorem chunkLoop_roundtrip (s o : Nat) :
    ∀ (rest cur : List String) (size k : Nat), k ≤ cur.length →
      (freshSpansFrom o k (chunkLoop s o rest cur size)).flatten = cur.drop k ++ rest := by
  intro rest
  induction rest with
  | nil =>
    intro cur size k hk
    by_cases h : cur = []
    · subst h
      have hk0 : k = 0 := by simpa using hk
      subst hk0
      simp [chunkLoop, freshSpansFrom]
    · simp [chunkLoop, h, freshSpansFrom, freshTail]
  | cons line rest' ih =>
    intro cur size k hk
    by_cases h : size + line.length > s ∧ cur ≠ []
    · rw [chunkLoop, if_pos h]
      have htail : ∀ L, freshTail o cur L = freshSpansFrom o (overlapSeed o cur).1.length L := by
        intro L
        cases L <;> rfl
      have hrec := ih ((overlapSeed o cur).1 ++ [line]) ((overlapSeed o cur).2 + line.length)
          (overlapSeed o cur).1.length (by simp)
      show (freshSpansFrom o k (cur :: chunkLoop s o rest' ((overlapSeed o cur).1 ++ [line])
          ((overlapSeed o cur).2 + line.length))).flatten = List.drop k cur ++ line :: rest'
      rw [freshSpansFrom, List.flatten_cons, htail, hrec, List.drop_left]
      simp
    · rw [chunkLoop, if_neg h]
      have hrec := ih (cur ++ [line]) (size + line.length) k
          (by rw [List.length_append]; omega)
      rw [hrec, List.drop_append_eq_append_drop]
      have : k - cur.length = 0 := by omega
      simp [this]

/-- Loop invariant for the size bound: `current_size` tracks the sum of the
buffer's line lengths, and every emitted chunk's sum stays under
`max chunk_size (overlap + M)` when every input line is at most `M` long. -/
theorem chunkLoop_sum_bound (s o M : Nat) :
    ∀ (rest cur : List String) (size : Nat),
      (∀ l ∈ rest, l.length ≤ M) →
      size = sumLens cur →
      sumLens cur ≤ max s (o + M) →
      ∀ c ∈ chunkLoop s o rest cur size, sumLens c ≤ max s (o + M) := by
  intro rest
  induction rest with
  | nil =>
    intro cur size hr hsz hb c hc
    by_cases h : cur = [] <;> simp [chunkLoop, h] at hc
    subst hc
    exact hb
  | cons line rest' ih =>
    intro cur size hr hsz hb c hc
    have hline : line.length ≤ M := hr line (List.mem_cons_self line rest')
    have hr' : ∀ l ∈ rest', l.length ≤ M := fun l hl => hr l (List.mem_cons_of_mem line hl)
    by_cases h : size + line.length > s ∧ cur ≠ []
    · rw [chunkLoop, if_pos h] at hc
      rcases List.mem_cons.mp hc with rfl | hc
      · exact hb
      · refine ih ((overlapSeed o cur).1 ++ [line]) ((overlapSeed o cur).2 + line.length)
          hr' ?_ ?_ c hc
        · rw [sumLens_append, overlapSeed_sum]
          simp [sumLens]
        · rw [sumLens_append]
          have h1 : sumLens (overlapSeed o cur).1 ≤ o := by
            rw [← overlapSeed_sum]
            exact overlapSeed_size_le o cur
          have h2 : sumLens [line] = line.length := by simp [sumLens]
          rw [h2]
          omega
    · rw [chunkLoop, if_neg h] at hc
      refine ih (cur ++ [line]) (size + line.length) hr' ?_ ?_ c hc
      · rw [sumLens_append]
        simp [sumLens, hsz]
      · rw [sumLens_append]
        have h2 : sumLens [line] = line.length := by simp [sumLens]
        rw [h2]
        by_cases hcur : cur = []
        · subst hcur
          simp [sumLens_nil]
          omega
        · have : ¬ size + line.length > s := fun hgt => h ⟨hgt, hcur⟩
          omega

/-- `len('\n'.join(L)) + 1 = sum(len(l) for l in L) + len(L)` for non-empty
`L`: the join inserts exactly `len(L) - 1` newline characters. -/
theorem joinNlChars_length :
    ∀ (l : List Char) (L : List (List Char)),
      (joinNlChars (l :: L)).length + 1 = ((l :: L).map List.length).sum + (l :: L).length := by
  intro l L
  induction L generalizing l with
  | nil => simp [joinNlChars]
  | cons l' L' ih =>
    have : joinNlChars (l :: l' :: L') = l ++ '\n' :: joinNlChars (l' :: L') := rfl
    rw [this]
    have hih := ih l'
    simp [List.length_append] at hih ⊢
    omega

/-- String-level corollary tying a chunk's `content` length to the sum of its
line lengths and the number of its lines. -/
theorem joinNl_length (ls : List String) (h : ls ≠ []) :
    (joinNl ls).length + 1 = sumLens ls + ls.length := by
  obtain ⟨l, ls', rfl⟩ := List.exists_cons_of_ne_nil h
  have hchars := joinNlChars_length l.data (ls'.map String.data)
  have hlen : (joinNl (l :: ls')).length = (joinNlChars (l.data :: ls'.map String.data)).length := rfl
  have hmap : (l.data :: ls'.map String.data).map List.length = (l :: ls').map String.length := by
    simp only [List.map_cons, List.map_map]
    rfl
  have hcount : (l.data :: ls'.map String.data).length = (l :: ls').length := by simp
  rw [hlen, hchars, hmap, hcount]
  rfl

/-! ## Claim C4 -/

/-- C4: for every input file content, concatenating, over the emitted chunks
in order, each chunk's unique (non-overlap) line span — the lines it does not
inherit as the overlap seed from the previous chunk — reconstructs exactly the
original file's line sequence in order.  Confirmed. -/
theorem chunking_roundtrip (chunk_size overlap : Nat) (content : String) :
    (freshSpans overlap (createChunksLines chunk_size overlap (splitLines content))).flatten =
      splitLines content := by
  have h := chunkLoop_roundtrip chunk_size overlap (splitLines content) [] 0 0 (by simp)
  simpa [freshSpans, createChunksLines] using h

/-! ## Claim C2 -/

/-- C2 counterexample: with `chunk_size = 10`, `chunk_overlap = 8` and the
file `"aaaa\nbbbb\ncccc\nddddd"`, no source line is longer than 10 characters,
yet the chunker emits a chunk (`"aaaa\nbbbb\ncccc"`, 14 characters) whose
content length exceeds `chunk_size` — the loop's `current_size` counts only
line characters, never the joining newlines, and the overlap seed plus the
next line can also push past `chunk_size`.  This refutes the claim that chunk
content length is at most `chunk_size` unless a single line alone exceeds
it. -/
theorem chunk_size_counterexample :
    (∀ l ∈ splitLines "aaaa\nbbbb\ncccc\nddddd", l.length ≤ 10) ∧
    ∃ c ∈ createChunks 10 8 "aaaa\nbbbb\ncccc\nddddd" "f.md" "config",
      10 < c.content.length := by
  decide

/-- C2 amended: for every input content whose every line has length at most
`M`, every emitted chunk's line-character count (its content length *not*
counting the newlines that join its lines, which is exactly the quantity the
loop bounds) is at most `max chunk_size (chunk_overlap + M)`; the chunk's
actual content length satisfies `len(content) + 1 = lineChars + lineCount`,
so it can exceed `chunk_size` by the number of joining newlines, and by the
overlap seed when `chunk_overlap + M > chunk_size`. -/
theorem chunk_size_bound_amended (chunk_size overlap M : Nat) (content : String)
    (hM : ∀ l ∈ splitLines content, l.length ≤ M) :
    ∀ ls ∈ createChunksLines chunk_size overlap (splitLines content),
      sumLens ls ≤ max chunk_size (overlap + M) ∧
      (joinNl ls).length + 1 = sumLens ls + ls.length := by
  intro ls hls
  refine ⟨chunkLoop_sum_bound chunk_size overlap M (splitLines content) [] 0 hM rfl
    (Nat.zero_le _) ls hls, ?_⟩
  exact joinNl_length ls (chunkLoop_ne_nil chunk_size overlap (splitLines content) [] 0 ls hls)

theorem chunk_size_bound_amended_witness :
    (∀ l ∈ splitLines "aaaa\nbbbb\ncccc\nddddd", l.length ≤ 5) ∧
    (∀ ls ∈ createChunksLines 10 8 (splitLines "aaaa\nbbbb\ncccc\nddddd"),
      sumLens ls ≤ max 10 (8 + 5) ∧ (joinNl ls).length + 1 = sumLens ls + ls.length) :=
  ⟨by decide, chunk_size_bound_amended 10 8 5 "aaaa\nbbbb\ncccc\nddddd" (by decide)⟩

/-! ## Claim C3 -/

/-- C3 counterexample: chunking the empty string does not produce zero chunks.
Python's `"".split('\n')` is `['']`, the single empty line is appended to the
buffer, and the final `if current_chunk:` flush emits it: exactly one chunk
with empty content. -/
theorem empty_file_counterexample :
    (createChunks 800 100 "" "a.py" "code").length = 1 ∧
    (createChunks 800 100 "" "a.py" "code").map Chunk.content = [""] := by
  decide

/-- C3 amended: chunking the empty string produces exactly one chunk, whose
content is the empty string, for every configuration and file identity. -/
theorem empty_file_one_chunk (chunk_size overlap : Nat) (p t : String) :
    (createChunks chunk_size overlap "" p t).map Chunk.content = [""] := by
  have hloop : createChunksLines chunk_size overlap (splitLines "") = [[""]] := by
    show chunkLoop chunk_size overlap [""] [] 0 = [[""]]
    rw [chunkLoop, if_neg (by simp)]
    rfl
  unfold createChunks
  rw [hloop]
  rfl

/-! ## Claim C5 -/

/-- C5 counterexample: with `chunk_overlap = 0` and `chunk_size = 2`, the file
`"ab\n\ncd"` chunks into `"ab\n"` and `"\ncd"`: the backward walk's guard
`overlap_size + len(prev_line) > 0` does not fire for empty lines, so the
empty line is carried as a non-empty overlap seed and the two consecutive
chunks share it. -/
theorem overlap_zero_counterexample :
    (createChunks 2 0 "ab\n\ncd" "f.md" "config").map Chunk.content = ["ab\n", "\ncd"] ∧
    ("" ∈ splitLines "ab\n" ∧ "" ∈ splitLines "\ncd") ∧
    (overlapSeed 0 ["ab", ""]).1 = [""] := by
  decide

/-- C5 amended: with `chunk_overlap = 0`, each chunk after the first begins
with the overlap seed carried from its predecessor, and that seed consists
only of *empty* lines — consecutive chunks never share a non-empty line, but
the seed itself need not be empty. -/
theorem overlap_zero_only_empty_lines (chunk_size : Nat) (content : String) :
    List.Chain' (fun a b => ∃ t, b = (overlapSeed 0 a).1 ++ t ∧
        ∀ l ∈ (overlapSeed 0 a).1, l.length = 0)
      (createChunksLines chunk_size 0 (splitLines content)) := by
  have h := chunkLoop_chain chunk_size 0 (splitLines content) [] 0
  refine List.Chain'.imp ?_ h
  intro a b hab
  obtain ⟨t, rfl⟩ := hab
  exact ⟨t, rfl, overlapSeed_zero_empty a⟩

/-! ## Claim C6 -/

/-- C6 counterexample: with `chunk_size = 2`, `chunk_overlap = 1`, the file
`"ab\n\n\n\ncd"` chunks into `"ab\n\n\n"` and `"\n\n\ncd"`.  The overlap seed
carried into the second chunk is the three trailing empty lines of the first;
as a character span of the chunk contents that seed is the string `"\n\n"`
(the second chunk begins with it and the first chunk ends with it), of length
2 > chunk_overlap = 1.  The walk bounds only the sum of the kept lines'
lengths, not the newlines joining them. -/
theorem overlap_char_length_counterexample :
    (createChunks 2 1 "ab\n\n\n\ncd" "f.md" "config").map Chunk.content =
      ["ab\n\n\n", "\n\n\ncd"] ∧
    createChunksLines 2 1 (splitLines "ab\n\n\n\ncd") =
      [["ab", "", "", ""], ["", "", "", "cd"]] ∧
    (overlapSeed 1 ["ab", "", "", ""]).1 = ["", "", ""] ∧
    joinNl ["", "", ""] = "\n\n" ∧
    isPre "\n\n".data "\n\n\ncd".data = true ∧
    isPre "\n\n".data.reverse "ab\n\n\n".data.reverse = true ∧
    ("\n\n".length = 2 ∧ 1 < 2) := by
  decide

/-- C6 amended: for `chunk_overlap = o > 0`, each chunk after the first begins
with the overlap seed, a contiguous trailing span (`drop n`) of the previous
chunk's lines, and the *sum of the seed's line lengths* — its character length
not counting the newlines that join the lines — is at most `o` (the full
character span can exceed `o` by the number of joining newlines). -/
theorem chunk_begins_with_seed (chunk_size overlap : Nat) (content : String)
    (_ho : 0 < overlap) :
    List.Chain' (fun a b => ∃ n t, n ≤ a.length ∧ (overlapSeed overlap a).1 = a.drop n ∧
        b = (overlapSeed overlap a).1 ++ t ∧ sumLens (overlapSeed overlap a).1 ≤ overlap)
      (createChunksLines chunk_size overlap (splitLines content)) := by
  have hc := chunkLoop_chain chunk_size overlap (splitLines content) [] 0
  refine List.Chain'.imp ?_ hc
  intro a b hab
  obtain ⟨t, rfl⟩ := hab
  obtain ⟨n, hn, hdrop⟩ := overlapSeed_drop overlap a
  refine ⟨n, t, hn, hdrop, rfl, ?_⟩
  rw [← overlapSeed_sum]
  exact overlapSeed_size_le overlap a

theorem chunk_begins_with_seed_witness :
    0 < 1 ∧
    List.Chain' (fun a b => ∃ n t, n ≤ a.length ∧ (overlapSeed 1 a).1 = a.drop n ∧
        b = (overlapSeed 1 a).1 ++ t ∧ sumLens (overlapSeed 1 a).1 ≤ 1)
      (createChunksLines 2 1 (splitLines "ab\n\n\n\ncd")) :=
  ⟨by decide, chunk_begins_with_seed 2 1 "ab\n\n\n\ncd" (by decide)⟩

/-! ## Lemmas about the search loop -/

/-- Starting under the cap, the loop never returns more than `top_k` results:
the `break` fires as soon as the just-appended result reaches the cap. -/
theorem searchLoop_length_le (chunks : List Chunk) (filter_type : String) (top_k : Nat) :
    ∀ (resp : List (Int × Int)) (acc : List SearchResult), acc.length < top_k →
      (searchLoop chunks filter_type top_k resp acc).length ≤ top_k := by
  intro resp
  induction resp with
  | nil =>
    intro acc hacc
    rw [searchLoop]
    omega
  | cons p rest ih =>
    intro acc hacc
    obtain ⟨score, idx⟩ := p
    simp only [searchLoop]
    split
    · exact ih acc hacc
    · split
      · exact ih acc hacc
      · split
        · simp only [List.length_append, List.length_singleton]
          omega
        · rename_i hfull
          refine ih _ ?_
          simp only [List.length_append, List.length_singleton] at hfull ⊢
          omega

/-- Every result the loop appends passed the category filter. -/
theorem searchLoop_filter (chunks : List Chunk) (filter_type : String) (top_k : Nat) :
    ∀ (resp : List (Int × Int)) (acc : List SearchResult),
      (∀ r ∈ acc, filter_type ≠ "all" → r.chunk.file_type = filter_type) →
      ∀ r ∈ searchLoop chunks filter_type top_k resp acc,
        filter_type ≠ "all" → r.chunk.file_type = filter_type := by
  intro resp
  induction resp with
  | nil =>
    intro acc hacc
    simpa [searchLoop] using hacc
  | cons p rest ih =>
    intro acc hacc
    obtain ⟨score, idx⟩ := p
    simp only [searchLoop]
    split
    · exact ih acc hacc
    · split
      · exact ih acc hacc
      · rename_i h1 h2
        split
        · intro r hr hne
          rcases List.mem_append.mp hr with hr | hr
          · exact hacc r hr hne
          · rw [List.mem_singleton.mp hr]
            by_contra hne2
            exact h2 ⟨hne, hne2⟩
        · refine ih _ ?_
          intro r hr hne
          rcases List.mem_append.mp hr with hr | hr
          · exact hacc r hr hne
          · rw [List.mem_singleton.mp hr]
            by_contra hne2
            exact h2 ⟨hne, hne2⟩

/-- The loop only ever appends to its accumulator, and the appended results'
scores form a sublist of the candidate scores in candidate order. -/
theorem searchLoop_append (chunks : List Chunk) (filter_type : String) (top_k : Nat) :
    ∀ (resp : List (Int × Int)) (acc : List SearchResult),
      ∃ l, searchLoop chunks filter_type top_k resp acc = acc ++ l ∧
        (l.map SearchResult.score).Sublist (resp.map Prod.fst) := by
  intro resp
  induction resp with
  | nil =>
    intro acc
    exact ⟨[], by simp [searchLoop], by simp⟩
  | cons p rest ih =>
    intro acc
    obtain ⟨score, idx⟩ := p
    simp only [searchLoop]
    split
    · obtain ⟨l, hl, hs⟩ := ih acc
      exact ⟨l, hl, List.Sublist.cons _ hs⟩
    · split
      · obtain ⟨l, hl, hs⟩ := ih acc
        exact ⟨l, hl, List.Sublist.cons _ hs⟩
      · split
        · refine ⟨_, rfl, ?_⟩
          simp only [List.map_cons, List.map_nil]
          exact List.Sublist.cons₂ score (List.nil_sublist (rest.map Prod.fst))
        · obtain ⟨l, hl, hs⟩ := ih (acc ++ [{ chunk := _, score := score }])
          refine ⟨_, by rw [hl, List.append_assoc], ?_⟩
          simpa using List.Sublist.cons₂ score hs

/-! ## Claim C1 -/

/-- C1: for every store state, `search` returns at most `top_k` results; every
returned result's category equals `filter_type` when it is not the wildcard
`"all"`; and the results carry descending similarity scores, assuming the
nearest-neighbor store's reply (at most `top_k * 3` rows, as FAISS is asked
for `min(top_k * 3, ntotal)`) lists candidates in descending score order.
Confirmed. -/
theorem search_results_bounded_filtered_sorted {V : Type} (vs : VectorStore V)
    (resp : List (Int × Int)) (top_k : Nat) (filter_type : String)
    (hlen : resp.length ≤ top_k * 3)
    (hsort : (resp.map Prod.fst).Pairwise (fun a b => b ≤ a)) :
    (vs.search resp top_k filter_type).length ≤ top_k ∧
    (∀ r ∈ vs.search resp top_k filter_type,
      filter_type ≠ "all" → r.chunk.file_type = filter_type) ∧
    ((vs.search resp top_k filter_type).map SearchResult.score).Pairwise
      (fun a b => b ≤ a) := by
  cases hidx : vs.index with
  | none => simp [VectorStore.search, hidx]
  | some vecs =>
    by_cases hv : vecs.length = 0
    · simp [VectorStore.search, hidx, hv]
    · have hsearch : vs.search resp top_k filter_type =
          searchLoop vs.chunks filter_type top_k resp [] := by
        simp [VectorStore.search, hidx, hv]
      rw [hsearch]
      refine ⟨?_, searchLoop_filter _ _ _ resp [] (by simp), ?_⟩
      · rcases Nat.eq_zero_or_pos top_k with h0 | hpos
        · subst h0
          have hnil : resp = [] := List.eq_nil_of_length_eq_zero (by omega)
          subst hnil
          simp [searchLoop]
        · exact searchLoop_length_le _ _ _ resp [] (by simpa using hpos)
      · obtain ⟨l, hl, hs⟩ := searchLoop_append vs.chunks filter_type top_k resp []
        rw [hl, List.nil_append]
        exact List.Pairwise.sublist hs hsort

theorem search_results_bounded_filtered_sorted_witness :
    (([((9 : Int), (0 : Int)), ((7 : Int), (1 : Int))]).length ≤ 2 * 3 ∧
      (([((9 : Int), (0 : Int)), ((7 : Int), (1 : Int))]).map Prod.fst).Pairwise
        (fun a b => b ≤ a)) ∧
    (((VectorStore.mk String.length id (some [5, 2])
        [{ content := "hello", file_path := "a.py", file_type := "code",
           language := "python", metadata := "" },
         { content := "hi", file_path := "b.md", file_type := "documentation",
           language := "markdown", metadata := "" }]).search
        [(9, 0), (7, 1)] 2 "code").length ≤ 2 ∧
      (∀ r ∈ (VectorStore.mk String.length id (some [5, 2])
        [{ content := "hello", file_path := "a.py", file_type := "code",
           language := "python", metadata := "" },
         { content := "hi", file_path := "b.md", file_type := "documentation",
           language := "markdown", metadata := "" }]).search [(9, 0), (7, 1)] 2 "code",
        "code" ≠ "all" → r.chunk.file_type = "code") ∧
      (((VectorStore.mk String.length id (some [5, 2])
        [{ content := "hello", file_path := "a.py", file_type := "code",
           language := "python", metadata := "" },
         { content := "hi", file_path := "b.md", file_type := "documentation",
           language := "markdown", metadata := "" }]).search
        [(9, 0), (7, 1)] 2 "code").map SearchResult.score).Pairwise (fun a b => b ≤ a)) :=
  ⟨⟨by decide, by decide⟩,
   search_results_bounded_filtered_sorted
     (VectorStore.mk String.length id (some [5, 2])
        [{ content := "hello", file_path := "a.py", file_type := "code",
           language := "python", metadata := "" },
         { content := "hi", file_path := "b.md", file_type := "documentation",
           language := "markdown", metadata := "" }])
     [(9, 0), (7, 1)] 2 "code" (by decide) (by decide)⟩

/-! ## Claim C8 -/

/-- `build` preserves the positional invariant: it either returns unchanged on
an empty input or installs exactly one normalized embedding per stored chunk,
in chunk order. -/
theorem build_preserves_inv {V : Type} (vs : VectorStore V) (cs : List Chunk)
    (h : vs.Inv) : (vs.build cs).Inv := by
  unfold VectorStore.build
  by_cases hcs : cs = []
  · simpa [hcs] using h
  · simp only [if_neg hcs]
    unfold VectorStore.Inv VectorStore.vectors
    simp [List.map_map]

/-- C8: after every completed `build` or `rebuild`, the vector store and the
stored chunk list have the same number of entries and vector position `i` is
the (normalized) embedding of chunk `i` of the stored chunk list.  Stated as
preservation/establishment of `VectorStore.Inv` plus its two consequences;
every state reachable from `__init__` (which satisfies `Inv` trivially) by
`build`/`rebuild` calls therefore satisfies it.  Confirmed. -/
theorem build_rebuild_positional {V : Type} (vs : VectorStore V) (cs cs' : List Chunk)
    (h : vs.Inv) :
    (vs.build cs).Inv ∧ (vs.rebuild cs').Inv ∧
    vs.vectors.length = vs.chunks.length ∧
    ∀ i : Nat, vs.vectors[i]? =
      (vs.chunks[i]?).map (fun c => vs.normalize (vs.model c.content)) := by
  refine ⟨build_preserves_inv vs cs h, ?_, ?_, ?_⟩
  · unfold VectorStore.rebuild
    refine build_preserves_inv _ cs' ?_
    unfold VectorStore.Inv VectorStore.vectors
    simp
  · unfold VectorStore.Inv at h
    rw [h]
    simp
  · intro i
    unfold VectorStore.Inv at h
    rw [h, List.getElem?_map]

theorem build_rebuild_positional_witness :
    (VectorStore.mk String.length id (some [2])
      [{ content := "ab", file_path := "a.py", file_type := "code",
         language := "python", metadata := "" }]).Inv ∧
    (((VectorStore.mk String.length id (some [2])
      [{ content := "ab", file_path := "a.py", file_type := "code",
         language := "python", metadata := "" }]).build
        [{ content := "xyz", file_path := "b.md", file_type := "documentation",
           language := "markdown", metadata := "" }]).Inv ∧
     ((VectorStore.mk String.length id (some [2])
      [{ content := "ab", file_path := "a.py", file_type := "code",
         language := "python", metadata := "" }]).rebuild []).Inv ∧
     (VectorStore.mk String.length id (some [2])
      [{ content := "ab", file_path := "a.py", file_type := "code",
         language := "python", metadata := "" }]).vectors.length =
       (VectorStore.mk String.length id (some [2])
      [{ content := "ab", file_path := "a.py", file_type := "code",
         language := "python", metadata := "" }]).chunks.length ∧
     ∀ i : Nat, (VectorStore.mk String.length id (some [2])
      [{ content := "ab", file_path := "a.py", file_type := "code",
         language := "python", metadata := "" }]).vectors[i]? =
       ((VectorStore.mk String.length id (some [2])
      [{ content := "ab", file_path := "a.py", file_type := "code",
         language := "python", metadata := "" }]).chunks[i]?).map
         (fun c => id (String.length c.content))) :=
  ⟨rfl,
   build_rebuild_positional
     (VectorStore.mk String.length id (some [2])
       [{ content := "ab", file_path := "a.py", file_type := "code",
          language := "python", metadata := "" }])
     [{ content := "xyz", file_path := "b.md", file_type := "documentation",
        language := "markdown", metadata := "" }] [] rfl⟩

/-! ## Claim C7 -/

/-- C7 counterexample: a file whose read fails to decode (`read = none`,
modelling the caught `UnicodeDecodeError`) produces no chunks and no
`FileRecord`, yet `index_all` still counts it: with a single such file the
pass reports `files_indexed = 1`, `by_type = {code: 1}` and adds its on-disk
size to `total_size` — the claim that it "does not contribute to the pass's
statistics" is false (and the `except UnicodeDecodeError` branch returns
silently, without logging). -/
theorem decode_failure_counted_counterexample :
    (indexAll (FS.mk (fun _ => none) (fun _ => 7) (fun _ => "t0") (fun _ => true))
        800 100 [("a.py", "code")]
        (IndexerState.mk [] [], Stats.mk 0 0 0 [])).2 = Stats.mk 1 0 7 [("code", 1)] ∧
    (indexAll (FS.mk (fun _ => none) (fun _ => 7) (fun _ => "t0") (fun _ => true))
        800 100 [("a.py", "code")]
        (IndexerState.mk [] [], Stats.mk 0 0 0 [])).1 = IndexerState.mk [] [] := by
  decide

/-- C7 amended: a file that fails to decode is skipped *as data* — it yields
no chunks and no `FileRecord`, and the pass continues over the remaining
files — but it is still counted in `files_indexed`, its category count and
`total_size` (and the decode branch does not log). -/
theorem decode_failure_skipped (fs : FS) (chunk_size overlap : Nat)
    (rel_path file_type : String) (st : IndexerState) (stats : Stats)
    (files₁ files₂ : List (String × String)) (acc : IndexerState × Stats)
    (h : fs.read rel_path = none) :
    indexFile fs chunk_size overlap st.files_index rel_path file_type = ([], st.files_index) ∧
    (indexStep fs chunk_size overlap (st, stats) (rel_path, file_type)).1 = st ∧
    (indexStep fs chunk_size overlap (st, stats) (rel_path, file_type)).2 =
      Stats.mk (stats.files_indexed + 1) stats.chunks_created
        (stats.total_size + fs.getsize rel_path) (bumpType stats.by_type file_type) ∧
    indexAll fs chunk_size overlap (files₁ ++ (rel_path, file_type) :: files₂) acc =
      indexAll fs chunk_size overlap files₂
        (indexStep fs chunk_size overlap
          (indexAll fs chunk_size overlap files₁ acc) (rel_path, file_type)) := by
  refine ⟨by simp [indexFile, h], ?_, ?_, ?_⟩
  · simp [indexStep, indexFile, h]
  · simp [indexStep, indexFile, h]
  · simp [indexAll, List.foldl_append]

theorem decode_failure_skipped_witness :
    (FS.mk (fun _ => none) (fun _ => 7) (fun _ => "t0") (fun _ => true)).read "a.py" = none ∧
    (indexFile (FS.mk (fun _ => none) (fun _ => 7) (fun _ => "t0") (fun _ => true))
        800 100 (IndexerState.mk [] []).files_index "a.py" "code" =
        ([], (IndexerState.mk [] []).files_index) ∧
     (indexStep (FS.mk (fun _ => none) (fun _ => 7) (fun _ => "t0") (fun _ => true))
        800 100 (IndexerState.mk [] [], Stats.mk 0 0 0 []) ("a.py", "code")).1 =
        IndexerState.mk [] [] ∧
     (indexStep (FS.mk (fun _ => none) (fun _ => 7) (fun _ => "t0") (fun _ => true))
        800 100 (IndexerState.mk [] [], Stats.mk 0 0 0 []) ("a.py", "code")).2 =
        Stats.mk ((Stats.mk 0 0 0 []).files_indexed + 1) (Stats.mk 0 0 0 []).chunks_created
          ((Stats.mk 0 0 0 []).total_size +
            (FS.mk (fun _ => none) (fun _ => 7) (fun _ => "t0") (fun _ => true)).getsize "a.py")
          (bumpType (Stats.mk 0 0 0 []).by_type "code") ∧
     indexAll (FS.mk (fun _ => none) (fun _ => 7) (fun _ => "t0") (fun _ => true))
        800 100 ([] ++ ("a.py", "code") :: []) (IndexerState.mk [] [], Stats.mk 0 0 0 []) =
      indexAll (FS.mk (fun _ => none) (fun _ => 7) (fun _ => "t0") (fun _ => true))
        800 100 []
        (indexStep (FS.mk (fun _ => none) (fun _ => 7) (fun _ => "t0") (fun _ => true))
          800 100
          (indexAll (FS.mk (fun _ => none) (fun _ => 7) (fun _ => "t0") (fun _ => true))
            800 100 [] (IndexerState.mk [] [], Stats.mk 0 0 0 []))
          ("a.py", "code"))) :=
  ⟨rfl,
   decode_failure_skipped (FS.mk (fun _ => none) (fun _ => 7) (fun _ => "t0") (fun _ => true))
     800 100 "a.py" "code" (IndexerState.mk [] []) (Stats.mk 0 0 0 []) [] []
     (IndexerState.mk [] [], Stats.mk 0 0 0 []) rfl⟩

/-! ## Claim C10 -/

/-- C10: `get_file_content(path)` returns `None` exactly when the joined path
does not exist or reading it raises; otherwise it returns the file's full
content — including for files that were never indexed (no `FileRecord`), in
which case the `type` field is the string `"unknown"` rather than a
not-found signal.  Confirmed. -/
theorem get_file_content_spec (fs : FS) (files_index : List (String × FileRecord))
    (project_root file_path : String)
    (h : files_index.lookup file_path = none) :
    (getFileContent fs files_index project_root file_path = none ↔
      fs.fexists (project_root ++ "/" ++ file_path) = false ∨
      fs.read (project_root ++ "/" ++ file_path) = none) ∧
    ∀ content, fs.read (project_root ++ "/" ++ file_path) = some content →
      fs.fexists (project_root ++ "/" ++ file_path) = true →
      getFileContent fs files_index project_root file_path =
        some (FileContext.mk file_path content "unknown" content.length
          (fs.getmtime (project_root ++ "/" ++ file_path))
          (detectLanguage (project_root ++ "/" ++ file_path))) := by
  unfold getFileContent
  cases hex : fs.fexists (project_root ++ "/" ++ file_path) with
  | false => simp [hex]
  | true =>
    cases hread : fs.read (project_root ++ "/" ++ file_path) with
    | none => simp [hex, hread]
    | some content => simp [hex, hread, h]

theorem get_file_content_spec_witness :
    (([] : List (String × FileRecord)).lookup "notes.md" = none) ∧
    ((getFileContent (FS.mk (fun _ => some "body") (fun _ => 4) (fun _ => "t2") (fun _ => true))
        [] "root" "notes.md" = none ↔
      (FS.mk (fun _ => some "body") (fun _ => 4) (fun _ => "t2") (fun _ => true)).fexists
          ("root" ++ "/" ++ "notes.md") = false ∨
      (FS.mk (fun _ => some "body") (fun _ => 4) (fun _ => "t2") (fun _ => true)).read
          ("root" ++ "/" ++ "notes.md") = none) ∧
     ∀ content,
       (FS.mk (fun _ => some "body") (fun _ => 4) (fun _ => "t2") (fun _ => true)).read
           ("root" ++ "/" ++ "notes.md") = some content →
       (FS.mk (fun _ => some "body") (fun _ => 4) (fun _ => "t2") (fun _ => true)).fexists
           ("root" ++ "/" ++ "notes.md") = true →
       getFileContent (FS.mk (fun _ => some "body") (fun _ => 4) (fun _ => "t2") (fun _ => true))
           [] "root" "notes.md" =
         some (FileContext.mk "notes.md" content "unknown" content.length
           ((FS.mk (fun _ => some "body") (fun _ => 4) (fun _ => "t2")
             (fun _ => true)).getmtime ("root" ++ "/" ++ "notes.md"))
           (detectLanguage ("root" ++ "/" ++ "notes.md")))) :=
  ⟨rfl,
   get_file_content_spec (FS.mk (fun _ => some "body") (fun _ => 4) (fun _ => "t2") (fun _ => true))
     [] "root" "notes.md" rfl⟩

/-! ## Claim C9 -/

/-- C9 (exhibit of the defect): the reindex path is *not* atomic with respect
to a concurrent reader.  On the modelled statement-level trace of one
`reindex` call (new index pass producing one chunk/record, starting from a
fully-built old generation), the state after `rebuild` has cleared the vector
store (`self.index = None`, `self.chunks = []`) but before `build` has loaded
the new vectors is observable, holds the *new* indexer data next to an empty
vector store, and differs from both the fully-old initial state and the
fully-new final state — exactly the mixed/cleared observation the claim
forbids.  A search in that window hits the empty-index guard and returns
`[]`. -/
theorem reindex_not_atomic :
    ∃ mid ∈ reindexStates String.length id
        [{ content := "new", file_path := "n.py", file_type := "code",
           language := "python", metadata := "" }]
        [("n.py", FileRecord.mk "n.py" "code" 3 "t1" "python")]
        (ServerState.mk
          [{ content := "old", file_path := "o.py", file_type := "code",
             language := "python", metadata := "" }]
          [("o.py", FileRecord.mk "o.py" "code" 3 "t0" "python")]
          [{ content := "old", file_path := "o.py", file_type := "code",
             language := "python", metadata := "" }]
          (some [3])),
      mid.vsIndex = none ∧ mid.vsChunks = [] ∧
      mid.idxChunks ≠ [] ∧
      mid ≠ ServerState.mk
          [{ content := "old", file_path := "o.py", file_type := "code",
             language := "python", metadata := "" }]
          [("o.py", FileRecord.mk "o.py" "code" 3 "t0" "python")]
          [{ content := "old", file_path := "o.py", file_type := "code",
             language := "python", metadata := "" }]
          (some [3]) ∧
      mid ≠ ServerState.mk
          [{ content := "new", file_path := "n.py", file_type := "code",
             language := "python", metadata := "" }]
          [("n.py", FileRecord.mk "n.py" "code" 3 "t1" "python")]
          [{ content := "new", file_path := "n.py", file_type := "code",
             language := "python", metadata := "" }]
          (some [3]) := by
  decide
